import Mathlib

/-!
A shallow embedding of the incremental directory iteration engine of
`src/py/directory_auto_iterator.py` (class `DirectoryAutoIterator`), together
with theorems settling the specification claims about it.

The file system and the image decoder are modelled by a `World` record: the
directory listing seen by the scan, the `os.walk` output, per-path existence
at load time (which may differ from scan time, modelling the scan/load race),
and per-path decodability.  Persisted per-directory progress records are a
`Store`: a map from state-file path to the stored content (absent, corrupt,
or a parsed JSON value).  Python dictionaries, lists and scalars read from
the state file are modelled by a small `Json` type, and the handful of
Python operations the source applies to them (`.get`, `in`, item assignment,
`set(...)`, set membership/insertion) are embedded with their Python error
behaviour (`AttributeError` / `TypeError`) made explicit via `Option` and
`Except`.
-/

namespace DirectoryAutoIterator

/-- One entry returned by `os.listdir`: its name and whether it is a regular
file.  The flat scan in the source never consults the file/directory bit. -/
structure Entry where
  name : String
  isFile : Bool
deriving DecidableEq, Repr

/-- The ambient file system and decoder, as observed during one invocation. -/
structure World where
  /-- `os.path.exists(directory_path)` for the configured directory. -/
  dirExists : Bool
  /-- `os.listdir(directory_path)` at scan time. -/
  listing : List Entry
  /-- the `(root, file)` pairs produced by `os.walk(directory_path)`. -/
  walk : List (String × String)
  /-- `os.path.exists(path)` when the per-file race check runs (load time). -/
  existsAtLoad : String → Bool
  /-- whether `PIL.Image.open` + conversion succeeds for the path. -/
  loadOk : String → Bool

/-- JSON values, as produced by `json.load` on the persisted state file. -/
inductive Json where
  | null
  | bool (b : Bool)
  | num (n : Int)
  | str (s : String)
  | arr (elems : List Json)
  | obj (fields : List (String × Json))
deriving Repr

/-- Python exceptions that can escape the subsystem uncaught. -/
inductive PyErr where
  | attributeError
  | typeError
deriving DecidableEq, Repr

/-- Content of one persisted state file: unreadable/unparseable, or parsed. -/
inductive StoredFile where
  | corrupt
  | parsed (j : Json)

/-- The durable state directory: state-file path to stored content. -/
def Store := String → Option StoredFile

def emptyStore : Store := fun _ => none

/-- Python `==` between JSON scalars (`bool` compares equal to its int value,
as in Python); containers never compare equal to scalars here because the
source only ever compares against strings. -/
def flatEq : Json → Json → Bool
  | .null, .null => true
  | .bool a, .bool b => a == b
  | .bool a, .num n => (if a then (1 : Int) else 0) == n
  | .num n, .bool a => n == (if a then (1 : Int) else 0)
  | .num a, .num b => a == b
  | .str a, .str b => a == b
  | _, _ => false

/-- Whether a JSON value is hashable in Python (scalars yes, containers no). -/
def hashable : Json → Bool
  | .arr _ => false
  | .obj _ => false
  | _ => true

/-- Membership in a Python set of JSON scalars. -/
def pmem (x : Json) (s : List Json) : Bool := s.any (flatEq x)

/-- `set.add`: insert if not already present. -/
def psAdd (s : List Json) (x : Json) : List Json := if pmem x s then s else s ++ [x]

/-- `set(iterable)`: deduplicate keeping first occurrences. -/
def pyDedup (l : List Json) : List Json := l.foldl psAdd []

/-- `set(v)` for a JSON value `v`: lists of hashables, strings (sets of
one-character strings) and dicts (sets of keys) are iterable; scalars raise
`TypeError` (`none`), as do lists holding unhashable elements. -/
def pySet : Json → Option (List Json)
  | .arr xs => if xs.all hashable then some (pyDedup xs) else none
  | .str s => some (pyDedup (s.data.map (fun c => .str ⟨[c]⟩)))
  | .obj kvs => some (pyDedup (kvs.map (fun kv => Json.str kv.1)))
  | _ => none

/-- Lookup in a Python dict (field list). -/
def lookupField (kvs : List (String × Json)) (k : String) : Option Json :=
  (kvs.find? (fun kv => kv.1 == k)).map (fun kv => kv.2)

/-- `d[k] = v` on a dict: update in place, or append preserving order. -/
def setField (kvs : List (String × Json)) (k : String) (v : Json) :
    List (String × Json) :=
  if kvs.any (fun kv => kv.1 == k) then
    kvs.map (fun kv => if kv.1 == k then (k, v) else kv)
  else kvs ++ [(k, v)]

/-- `d.pop(k, None)` on a dict. -/
def removeField (kvs : List (String × Json)) (k : String) :
    List (String × Json) :=
  kvs.filter (fun kv => ! (kv.1 == k))

/-- Substring test on character lists (Python `needle in haystack` for str). -/
def strContains (hay needle : String) : Bool :=
  (List.range (hay.data.length + 1)).any fun i =>
    List.isPrefixOf needle.data (hay.data.drop i)

/-- Python `k in v` for a string key `k`: key test on dicts, element test on
lists, substring test on strings, `TypeError` (`none`) on scalars. -/
def pyContainsKey (j : Json) (k : String) : Option Bool :=
  match j with
  | .obj kvs => some (kvs.any (fun kv => kv.1 == k))
  | .arr xs => some (xs.any (fun x => flatEq x (.str k)))
  | .str s => some (strContains s k)
  | _ => none

/-- ASCII lowercasing of one character (what `str.lower` does on ASCII). -/
def lowerChar (c : Char) : Char :=
  if 65 ≤ c.toNat ∧ c.toNat ≤ 90 then Char.ofNat (c.toNat + 32) else c

/-- `s.lower()`. -/
def lowerStr (s : String) : String := ⟨s.data.map lowerChar⟩

/-- `s.endswith(suf)`. -/
def suffixOf (suf s : String) : Bool :=
  List.isPrefixOf suf.data.reverse s.data.reverse

/-- Code-point lexicographic `<=` on character lists (Python str order). -/
def lexLeChars : List Char → List Char → Bool
  | [], _ => true
  | _ :: _, [] => false
  | a :: as, b :: bs =>
    if a.toNat < b.toNat then true
    else if b.toNat < a.toNat then false
    else lexLeChars as bs

/-- Python `<=` on strings. -/
def strLe (a b : String) : Bool := lexLeChars a.data b.data

/-- `strLe` as a relation, for sorting. -/
def sLE (a b : String) : Prop := strLe a b = true

instance : DecidableRel sLE := fun _ _ => inferInstanceAs (Decidable (_ = true))

/-- `list.sort()` on strings: Python's sort is a stable ascending sort, which
is (extensionally) insertion sort by the same total order. -/
def sortStrings (l : List String) : List String := List.insertionSort sLE l

/-- `os.path.join` for a directory and a relative name under it. -/
def pjoin (d f : String) : String := d ++ "/" ++ f

/-- `os.path.basename`: everything after the last separator. -/
def basename (p : String) : String :=
  ⟨p.data.foldl (fun acc c => if c = '/' then [] else acc ++ [c]) []⟩

/-- `self.image_extensions` from `__init__`. -/
def image_extensions : List String :=
  [".jpg", ".jpeg", ".png", ".bmp", ".tiff", ".tif", ".webp", ".gif"]

/-- `any(file.lower().endswith(ext) for ext in self.image_extensions)`. -/
def isImageName (file : String) : Bool :=
  image_extensions.any (fun ext => suffixOf ext (lowerStr file))

/-- `self.state_dir` (its absolute prefix is irrelevant to the claims). -/
def state_dir : String := ".directory_states"

/-- The character substitution applied to the directory path. -/
def sanitizeChar (c : Char) : Char :=
  if c = '/' ∨ c = '\\' ∨ c = ':' then '_' else c

/-- `get_state_file_path`: `None` for a falsy path, otherwise the sanitized
state-file name under the state directory. -/
def get_state_file_path (directory_path : String) : Option String :=
  if directory_path = "" then none
  else
    some (pjoin state_dir
      ("directory_state_" ++ (⟨directory_path.data.map sanitizeChar⟩ : String) ++ ".json"))

/-- The fresh-state dictionary literal used by `load_state` and `reset_state`:
`{"processed_files": [], "directory_path": directory_path, "completed": False}`. -/
def freshFields (directory_path : String) : List (String × Json) :=
  [("processed_files", .arr []), ("directory_path", .str directory_path),
   ("completed", .bool false)]

/-- The body of the `try` block of `load_state` after `json.load` succeeded:
the legacy-shape migration.  `none` models an exception raised inside the
`try` (caught by `load_state`, which then falls back to a fresh state). -/
def migrateState (state : Json) : Option Json := do
  let hasIdx ← pyContainsKey state "current_index"
  let migrate ←
    if hasIdx then do
      let hasPf ← pyContainsKey state "processed_files"
      pure (!hasPf)
    else pure false
  if migrate then
    match state with
    | .obj kvs =>
        pure (.obj (removeField (setField kvs "processed_files" (.arr [])) "current_index"))
    | _ => none
  else pure state

/-- `load_state`: read and parse the state file, migrating the legacy shape;
any failure yields the fresh default state. -/
def load_state (st : Store) (directory_path : String) : Json :=
  match get_state_file_path directory_path with
  | none => .obj (freshFields directory_path)
  | some state_file =>
    match st state_file with
    | none => .obj (freshFields directory_path)
    | some .corrupt => .obj (freshFields directory_path)
    | some (.parsed j) => (migrateState j).getD (.obj (freshFields directory_path))

/-- `save_state`: overwrite the whole record (dump followed by a later parse
round-trips, so the stored content is the JSON value itself). -/
def save_state (st : Store) (directory_path : String) (state : Json) : Store :=
  match get_state_file_path directory_path with
  | none => st
  | some state_file => fun k => if k = state_file then some (.parsed state) else st k

/-- `reset_state`: persist and return a fresh empty state. -/
def reset_state (st : Store) (directory_path : String) : Store × Json :=
  (save_state st directory_path (.obj (freshFields directory_path)),
   .obj (freshFields directory_path))

/-- `scan_directory_for_images`: list the directory, keep entries whose name
ends (case-insensitively) with a known image extension — the file/directory
bit is never consulted — join with the directory, sort. -/
def scan_directory_for_images (w : World) (directory_path : String) : List String :=
  if w.dirExists = false then []
  else
    sortStrings
      ((w.listing.filter (fun e => isImageName e.name)).map
        (fun e => pjoin directory_path e.name))

/-- `scan_directory_recursive`: same filter over the `os.walk` output, sorted
by full path across the whole tree. -/
def scan_directory_recursive (w : World) (directory_path : String) : List String :=
  if w.dirExists = false then []
  else
    sortStrings
      ((w.walk.filter (fun rf => isImageName rf.2)).map
        (fun rf => pjoin rf.1 rf.2))

/-- `load_image_as_tensor`: the tensor content is irrelevant to every claim,
so a successful decode is represented by the path it decoded. -/
def load_image_as_tensor (w : World) (image_path : String) :
    Option String × Option String :=
  if w.loadOk image_path then (some image_path, some image_path) else (none, none)

/-- The 8-tuple returned by `load_next_image`, with the source's
`RETURN_NAMES`.  A tensor payload is represented by its source path. -/
structure Ret where
  image : Option String
  mask : Option String
  file_path : String
  filename : String
  current_index : Nat
  total_count : Nat
  completed : Bool
  status : String
deriving DecidableEq, Repr

/-- Status string of the all-processed branch. -/
def allProcessedStatus (n : Nat) : String :=
  "All images processed. Processed " ++ toString n ++ " total images."

/-- Status string of the everything-failed branch. -/
def exhaustedStatus (n total : Nat) : String :=
  "All remaining images failed to load. Processed " ++ toString n ++ "/" ++
    toString total ++ " images."

/-- Status string of the successful branch. -/
def processingStatus (filename : String) (n total : Nat) (remaining : Int) : String :=
  "Processing: " ++ filename ++ " (" ++ toString n ++ "/" ++ toString total ++
    " processed, " ++ toString remaining ++ " remaining)"

/-- The `for attempt_path in unprocessed_images` loop: skip paths missing at
load time, consume load failures, stop at the first successful load.  Every
visited path is added to the processed set. -/
def attemptLoad (w : World) : List String → List Json → List Json × Option String
  | [], processed => (processed, none)
  | attempt_path :: rest, processed =>
    if w.existsAtLoad attempt_path = false then
      attemptLoad w rest (psAdd processed (.str attempt_path))
    else
      match load_image_as_tensor w attempt_path with
      | (some _, _) => (psAdd processed (.str attempt_path), some attempt_path)
      | (none, _) => attemptLoad w rest (psAdd processed (.str attempt_path))

/-- Lines 228-289: diff the candidates against the processed set, then either
report all-processed or drive the load loop and report its outcome. -/
def afterDiff (w : World) (st : Store) (directory_path : String)
    (all_images : List String) (kvs : List (String × Json))
    (processed0 : List Json) : Store × Except PyErr Ret :=
  if (all_images.filter (fun img => ! pmem (.str img) processed0)).isEmpty then
    (save_state st directory_path (.obj (setField kvs "completed" (.bool true))),
     .ok ⟨none, none, "", "", processed0.length, all_images.length, false,
       allProcessedStatus processed0.length⟩)
  else
    match attemptLoad w
        (all_images.filter (fun img => ! pmem (.str img) processed0)) processed0 with
    | (processed, none) =>
      (save_state st directory_path (.obj (setField
          (setField kvs "processed_files" (.arr processed)) "completed"
          (.bool (decide (processed.length ≥ all_images.length))))),
       .ok ⟨none, none, "", "", processed.length, all_images.length, false,
         exhaustedStatus processed.length all_images.length⟩)
    | (processed, some current_image_path) =>
      (save_state st directory_path (.obj (setField
          (setField kvs "processed_files" (.arr processed)) "completed"
          (.bool (decide (processed.length ≥ all_images.length))))),
       .ok ⟨some current_image_path, some current_image_path, current_image_path,
         basename current_image_path, processed.length, all_images.length, true,
         processingStatus (basename current_image_path) processed.length
           all_images.length
           ((all_images.length : Int) - (processed.length : Int))⟩)

/-- Line 226: `set(state.get("processed_files", []))`; a non-settable value
raises `TypeError`. -/
def afterLoadState (w : World) (st : Store) (directory_path : String)
    (all_images : List String) (kvs : List (String × Json)) :
    Store × Except PyErr Ret :=
  match pySet ((lookupField kvs "processed_files").getD (.arr [])) with
  | none => (st, .error .typeError)
  | some processed0 => afterDiff w st directory_path all_images kvs processed0

/-- Line 219: `state.get("directory_path") != directory_path` (Python `!=`
between the looked-up JSON value, or `None`, and the string). -/
def dirMismatch (kvs0 : List (String × Json)) (directory_path : String) : Bool :=
  match lookupField kvs0 "directory_path" with
  | some j => ! flatEq j (.str directory_path)
  | none => true

/-- Lines 219-224: the directory-change auto-reset followed by the manual
reset (the two sequential conditionals expanded into their four paths). -/
def applyResets (st : Store) (directory_path reset_on_directory_change : String)
    (should_reset : Bool) (kvs0 : List (String × Json)) :
    Store × List (String × Json) :=
  if dirMismatch kvs0 directory_path && (reset_on_directory_change == "enable") then
    if should_reset then
      (save_state (save_state st directory_path (.obj (freshFields directory_path)))
        directory_path (.obj (freshFields directory_path)),
       freshFields directory_path)
    else
      (save_state st directory_path (.obj (freshFields directory_path)),
       freshFields directory_path)
  else
    if should_reset then
      (save_state st directory_path (.obj (freshFields directory_path)),
       freshFields directory_path)
    else (st, kvs0)

/-- Lines 204-208: the fresh rescan, flat or recursive. -/
def candidates (w : World) (directory_path process_subdirectories : String) :
    List String :=
  if process_subdirectories = "enable" then
    scan_directory_recursive w directory_path
  else scan_directory_for_images w directory_path

/-- `load_next_image`, one invocation: returns the updated store and either
the 8-tuple result or the uncaught Python exception it raises.  The exception
exits (lines 219 and 226) happen before any store mutation of this call, so
the store is returned unchanged there. -/
def load_next_image (w : World) (st : Store)
    (directory_path process_subdirectories reset_on_directory_change
     reset_progress : String) : Store × Except PyErr Ret :=
  if directory_path = "" ∨ w.dirExists = false then
    (st, .ok ⟨none, none, "", "", 0, 0, false, "Invalid directory path"⟩)
  else
    if (candidates w directory_path process_subdirectories).length = 0 then
      (st, .ok ⟨none, none, "", "", 0, 0, false, "No images found in directory"⟩)
    else
      match load_state st directory_path with
      | .obj kvs0 =>
        match applyResets st directory_path reset_on_directory_change
            (reset_progress = "true") kvs0 with
        | (st1, kvs1) =>
          afterLoadState w st1 directory_path
            (candidates w directory_path process_subdirectories) kvs1
      | _ => (st, .error .attributeError)

/-! ### Order properties of the embedded string comparison -/

theorem lexLeChars_cons_iff (a b : Char) (as bs : List Char) :
    lexLeChars (a :: as) (b :: bs) = true ↔
      (a.toNat < b.toNat ∨ (a.toNat = b.toNat ∧ lexLeChars as bs = true)) := by
  by_cases h1 : a.toNat < b.toNat <;> by_cases h2 : b.toNat < a.toNat <;>
    simp [lexLeChars, h1, h2] <;> omega

theorem lexLeChars_total : ∀ as bs : List Char,
    lexLeChars as bs = true ∨ lexLeChars bs as = true := by
  intro as
  induction as with
  | nil => intro bs; left; rfl
  | cons a as ih =>
    intro bs
    cases bs with
    | nil => right; rfl
    | cons b bs =>
      rcases Nat.lt_trichotomy a.toNat b.toNat with h | h | h
      · left; rw [lexLeChars_cons_iff]; exact Or.inl h
      · rcases ih bs with h' | h'
        · left; rw [lexLeChars_cons_iff]; exact Or.inr ⟨h, h'⟩
        · right; rw [lexLeChars_cons_iff]; exact Or.inr ⟨h.symm, h'⟩
      · right; rw [lexLeChars_cons_iff]; exact Or.inl h

theorem lexLeChars_trans : ∀ as bs cs : List Char,
    lexLeChars as bs = true → lexLeChars bs cs = true → lexLeChars as cs = true := by
  intro as
  induction as with
  | nil => intro bs cs _ _; rfl
  | cons a as ih =>
    intro bs cs hab hbc
    cases bs with
    | nil => simp [lexLeChars] at hab
    | cons b bs =>
      cases cs with
      | nil => simp [lexLeChars] at hbc
      | cons c cs =>
        rw [lexLeChars_cons_iff] at hab hbc ⊢
        rcases hab with h | ⟨h, hab'⟩
        · rcases hbc with h' | ⟨h', _⟩
          · exact Or.inl (h.trans h')
          · exact Or.inl (h' ▸ h)
        · rcases hbc with h' | ⟨h', hbc'⟩
          · exact Or.inl (h ▸ h')
          · exact Or.inr ⟨h.trans h', ih bs cs hab' hbc'⟩

instance : IsTotal String sLE := ⟨fun a b => lexLeChars_total a.data b.data⟩

instance : IsTrans String sLE :=
  ⟨fun _ _ _ hab hbc => lexLeChars_trans _ _ _ hab hbc⟩

theorem sortStrings_sorted (l : List String) : (sortStrings l).Sorted sLE :=
  List.sorted_insertionSort sLE l

theorem sortStrings_perm (l : List String) : (sortStrings l).Perm l :=
  List.perm_insertionSort sLE l

theorem mem_sortStrings {p : String} {l : List String} :
    p ∈ sortStrings l ↔ p ∈ l :=
  (sortStrings_perm l).mem_iff

/-! ### Basic facts about the embedded Python values and sets -/

theorem flatEq_str_iff (s : String) (x : Json) :
    flatEq (.str s) x = true ↔ x = .str s := by
  cases x <;> simp [flatEq] <;> exact eq_comm

theorem beqComm {α : Type} [BEq α] [LawfulBEq α] (a b : α) : (a == b) = (b == a) := by
  cases hab : a == b <;> cases hba : b == a <;> try rfl
  · cases eq_of_beq hba; simp at hab
  · cases eq_of_beq hab; simp at hba

theorem flatEq_symm (x y : Json) : flatEq x y = flatEq y x := by
  cases x <;> cases y <;> first
    | rfl
    | (simp only [flatEq]; exact beqComm _ _)

theorem pmem_append (x : Json) (s t : List Json) :
    pmem x (s ++ t) = (pmem x s || pmem x t) := by
  simp [pmem, List.any_append]

theorem pmem_str_map (p : String) (l : List String) :
    pmem (.str p) (l.map .str) = true ↔ p ∈ l := by
  simp only [pmem, List.any_eq_true, List.mem_map]
  constructor
  · rintro ⟨x, ⟨q, hq, rfl⟩, heq⟩
    rcases (flatEq_str_iff p _).mp heq with h
    cases h; exact hq
  · intro hp; exact ⟨.str p, ⟨p, hp, rfl⟩, by simp [flatEq]⟩

theorem psAdd_mono {x : Json} {s : List Json} (y : Json)
    (h : pmem x s = true) : pmem x (psAdd s y) = true := by
  unfold psAdd
  split
  · exact h
  · rw [pmem_append, h]; rfl

theorem psAdd_str_not_mem {p : String} {l : List String} (h : p ∉ l) :
    psAdd (l.map .str) (.str p) = (l ++ [p]).map .str := by
  have hne : ¬ pmem (Json.str p) (l.map .str) = true := fun hm =>
    h ((pmem_str_map p l).mp hm)
  unfold psAdd
  rw [if_neg hne, List.map_append]
  rfl

theorem psAdd_str_mem {p : String} {l : List String} (h : p ∈ l) :
    psAdd (l.map .str) (.str p) = l.map .str := by
  unfold psAdd
  rw [if_pos ((pmem_str_map p l).mpr h)]

/-- The invariant maintained by Python sets: pairwise-unequal hashables. -/
def setLike (s : List Json) : Prop :=
  List.Pairwise (fun a b => flatEq a b = false) s ∧ ∀ x ∈ s, hashable x = true

theorem setLike_nil : setLike [] := ⟨List.Pairwise.nil, by simp⟩

theorem pmem_false_forall {x : Json} {s : List Json} (h : pmem x s = false) :
    ∀ y ∈ s, flatEq y x = false := by
  intro y hy
  rw [flatEq_symm]
  by_contra hne
  have : pmem x s = true := by
    simp only [pmem, List.any_eq_true]
    exact ⟨y, hy, by revert hne; cases flatEq x y <;> simp⟩
  rw [h] at this; exact absurd this (by simp)

theorem psAdd_setLike {s : List Json} {x : Json} (hs : setLike s)
    (hx : hashable x = true) : setLike (psAdd s x) := by
  unfold psAdd
  split
  · exact hs
  · rename_i hmem
    refine ⟨?_, ?_⟩
    · rw [List.pairwise_append]
      refine ⟨hs.1, by simp, ?_⟩
      intro a ha b hb
      simp only [List.mem_singleton] at hb
      subst hb
      exact pmem_false_forall (Bool.of_not_eq_true hmem) a ha
    · intro y hy
      rcases List.mem_append.mp hy with h | h
      · exact hs.2 y h
      · simp only [List.mem_singleton] at h; subst h; exact hx

theorem setLike_map_str {l : List String} (h : l.Nodup) : setLike (l.map .str) := by
  refine ⟨?_, ?_⟩
  · refine List.Pairwise.map _ ?_ h
    intro a b hne
    simp only [flatEq]
    simp [hne]
  · intro x hx
    rcases List.mem_map.mp hx with ⟨q, _, rfl⟩
    rfl

theorem foldl_psAdd_flat : ∀ (s acc : List Json),
    List.Pairwise (fun a b => flatEq a b = false) s →
    (∀ x ∈ s, pmem x acc = false) →
    s.foldl psAdd acc = acc ++ s := by
  intro s
  induction s with
  | nil => intro acc _ _; simp
  | cons x rest ih =>
    intro acc hp hmem
    have hx : pmem x acc = false := hmem x (by simp)
    have hstep : psAdd acc x = acc ++ [x] := by unfold psAdd; rw [hx]; rfl
    have hmem' : ∀ y ∈ rest, pmem y (acc ++ [x]) = false := by
      intro y hy
      have hfx : flatEq y x = false := by
        rw [flatEq_symm]
        exact List.rel_of_pairwise_cons hp hy
      rw [pmem_append, hmem y (by simp [hy])]
      simp [pmem, hfx]
    rw [List.foldl_cons, hstep, ih (acc ++ [x]) hp.of_cons hmem', List.append_assoc]
    rfl

theorem pyDedup_setLike_fix {s : List Json} (h : setLike s) : pyDedup s = s := by
  unfold pyDedup
  have := foldl_psAdd_flat s [] h.1 (by intro x _; rfl)
  simpa using this

theorem pyDedup_map_str {l : List String} (h : l.Nodup) :
    pyDedup (l.map .str) = l.map .str :=
  pyDedup_setLike_fix (setLike_map_str h)

theorem pySet_arr_setLike {s : List Json} (h : setLike s) :
    pySet (.arr s) = some s := by
  simp only [pySet]
  rw [if_pos, pyDedup_setLike_fix h]
  exact List.all_eq_true.mpr h.2

theorem pySet_map_str {l : List String} (h : l.Nodup) :
    pySet (.arr (l.map .str)) = some (l.map .str) :=
  pySet_arr_setLike (setLike_map_str h)

/-! ### Dictionary field lemmas -/

theorem find?_cons_eq {α : Type} (p : α → Bool) (a : α) (l : List α) :
    List.find? p (a :: l) = if p a then some a else List.find? p l := by
  cases h : p a <;> simp [List.find?, h]

theorem lookupField_map_update (kvs : List (String × Json)) (k : String) (v : Json)
    (hany : kvs.any (fun kv => kv.1 == k) = true) :
    lookupField (kvs.map (fun kv => if kv.1 == k then (k, v) else kv)) k = some v := by
  induction kvs with
  | nil => simp at hany
  | cons kv rest ih =>
    rw [List.map_cons]
    by_cases hk : (kv.1 == k) = true
    · rw [if_pos hk]
      unfold lookupField
      rw [List.find?_cons_of_pos _ (by simp)]
      rfl
    · rw [if_neg hk]
      have hrest : rest.any (fun kv => kv.1 == k) = true := by
        rcases List.any_eq_true.mp hany with ⟨x, hx, hpx⟩
        rcases List.mem_cons.mp hx with rfl | hx'
        · exact absurd hpx hk
        · exact List.any_eq_true.mpr ⟨x, hx', hpx⟩
      have := ih hrest
      unfold lookupField at this ⊢
      rw [List.find?_cons_of_neg _ (by simpa using hk)]
      exact this

theorem lookupField_setField_self (kvs : List (String × Json)) (k : String) (v : Json) :
    lookupField (setField kvs k v) k = some v := by
  unfold setField
  by_cases hany : kvs.any (fun kv => kv.1 == k) = true
  · rw [if_pos hany]
    exact lookupField_map_update kvs k v hany
  · rw [if_neg hany]
    unfold lookupField
    have h1 : kvs.find? (fun kv => kv.1 == k) = none := by
      rw [List.find?_eq_none]
      intro x hx hpx
      exact hany (List.any_eq_true.mpr ⟨x, hx, hpx⟩)
    rw [List.find?_append, h1, List.find?_cons_of_pos _ (by simp)]
    rfl

theorem lookupField_setField_ne (kvs : List (String × Json)) {k' k : String} (v : Json)
    (h : (k' == k) = false) :
    lookupField (setField kvs k' v) k = lookupField kvs k := by
  unfold setField
  by_cases hany : kvs.any (fun kv => kv.1 == k') = true
  · rw [if_pos hany]
    clear hany
    induction kvs with
    | nil => rfl
    | cons kv rest ih =>
      rw [List.map_cons]
      unfold lookupField at ih ⊢
      by_cases hk : (kv.1 == k') = true
      · rw [if_pos hk]
        have hkvk : (kv.1 == k) = false := by cases eq_of_beq hk; exact h
        rw [List.find?_cons_of_neg _ (by simp [h]),
          List.find?_cons_of_neg _ (by simp [hkvk])]
        exact ih
      · rw [if_neg hk]
        rw [find?_cons_eq, find?_cons_eq]
        by_cases hkk : (kv.1 == k) = true
        · rw [if_pos hkk, if_pos hkk]
        · rw [if_neg hkk, if_neg hkk]
          exact ih
  · rw [if_neg hany]
    unfold lookupField
    rw [List.find?_append, find?_cons_eq]
    simp [h]

theorem lookupField_removeField_self (kvs : List (String × Json)) (k : String) :
    lookupField (removeField kvs k) k = none := by
  unfold lookupField removeField
  have h1 : (kvs.filter (fun kv => ! (kv.1 == k))).find? (fun kv => kv.1 == k) = none := by
    rw [List.find?_eq_none]
    intro x hx
    rcases List.mem_filter.mp hx with ⟨_, hpx⟩
    simpa using hpx
  rw [h1]
  rfl

theorem lookupField_removeField_ne (kvs : List (String × Json)) {k' k : String}
    (h : (k' == k) = false) :
    lookupField (removeField kvs k') k = lookupField kvs k := by
  unfold lookupField removeField
  induction kvs with
  | nil => rfl
  | cons kv rest ih =>
    by_cases hk : (kv.1 == k') = true
    · rw [List.filter_cons_of_neg (by simpa using hk)]
      have hkvk : (kv.1 == k) = false := by cases eq_of_beq hk; exact h
      rw [List.find?_cons_of_neg _ (by simp [hkvk])]
      exact ih
    · rw [List.filter_cons_of_pos (by simpa using hk)]
      rw [find?_cons_eq, find?_cons_eq]
      by_cases hkk : (kv.1 == k) = true
      · rw [if_pos hkk, if_pos hkk]
      · rw [if_neg hkk, if_neg hkk]
        exact ih

theorem any_of_lookupField_eq_some {kvs : List (String × Json)} {k : String} {v : Json}
    (h : lookupField kvs k = some v) :
    kvs.any (fun kv => kv.1 == k) = true := by
  unfold lookupField at h
  rcases Option.map_eq_some'.mp h with ⟨kv, hfind, _⟩
  have hp := List.find?_some hfind
  exact List.any_eq_true.mpr ⟨kv, List.mem_of_find?_eq_some hfind, hp⟩

theorem any_of_lookupField_eq_none {kvs : List (String × Json)} {k : String}
    (h : lookupField kvs k = none) :
    kvs.any (fun kv => kv.1 == k) = false := by
  unfold lookupField at h
  have hfind : kvs.find? (fun kv => kv.1 == k) = none := by
    cases hf : kvs.find? (fun kv => kv.1 == k) with
    | none => rfl
    | some kv => rw [hf] at h; simp at h
  rw [Bool.eq_false_iff]
  intro hany
  rcases List.any_eq_true.mp hany with ⟨x, hx, hpx⟩
  exact (List.find?_eq_none.mp hfind x hx) hpx

/-! ### The canonical persisted state shape and one-step characterizations -/

/-- The state dictionary exactly as this engine itself persists it: a
processed list of string paths, the directory path, and a completed flag. -/
def stateFields (directory_path : String) (l : List String) (c : Bool) :
    List (String × Json) :=
  [("processed_files", .arr (l.map .str)),
   ("directory_path", .str directory_path),
   ("completed", .bool c)]

theorem freshFields_eq (dp : String) : freshFields dp = stateFields dp [] false := rfl

/-- The state-file path of a nonempty directory path. -/
def spath (directory_path : String) : String :=
  pjoin state_dir
    ("directory_state_" ++ (⟨directory_path.data.map sanitizeChar⟩ : String) ++ ".json")

theorem get_state_file_path_eq {dp : String} (h : dp ≠ "") :
    get_state_file_path dp = some (spath dp) := by
  simp [get_state_file_path, spath, h]

theorem save_state_spath {dp : String} (h : dp ≠ "") (st : Store) (j : Json) :
    save_state st dp j = fun k => if k = spath dp then some (.parsed j) else st k := by
  unfold save_state
  rw [get_state_file_path_eq h]

theorem save_state_read {dp : String} (h : dp ≠ "") (st : Store) (j : Json) :
    save_state st dp j (spath dp) = some (.parsed j) := by
  rw [save_state_spath h]
  simp

theorem stateFields_dir (dp : String) (l : List String) (c : Bool) :
    lookupField (stateFields dp l c) "directory_path" = some (.str dp) := rfl

theorem stateFields_pf (dp : String) (l : List String) (c : Bool) :
    lookupField (stateFields dp l c) "processed_files" = some (.arr (l.map .str)) := rfl

theorem setField_completed_stateFields (dp : String) (l : List String) (c b : Bool) :
    setField (stateFields dp l c) "completed" (.bool b) = stateFields dp l b := rfl

theorem setField_pf_completed_stateFields (dp : String) (l l' : List String)
    (c b : Bool) :
    setField (setField (stateFields dp l c) "processed_files" (.arr (l'.map .str)))
      "completed" (.bool b) = stateFields dp l' b := rfl

theorem migrateState_stateFields (dp : String) (l : List String) (c : Bool) :
    migrateState (.obj (stateFields dp l c)) = some (.obj (stateFields dp l c)) := rfl

theorem load_state_none {dp : String} (h : dp ≠ "") {st : Store}
    (hst : st (spath dp) = none) :
    load_state st dp = .obj (stateFields dp [] false) := by
  unfold load_state
  rw [get_state_file_path_eq h]
  dsimp only
  rw [hst]
  rfl

theorem load_state_corrupt {dp : String} (h : dp ≠ "") {st : Store}
    (hst : st (spath dp) = some .corrupt) :
    load_state st dp = .obj (stateFields dp [] false) := by
  unfold load_state
  rw [get_state_file_path_eq h]
  dsimp only
  rw [hst]
  rfl

theorem load_state_parsed {dp : String} (h : dp ≠ "") {st : Store} {j : Json}
    (hst : st (spath dp) = some (.parsed j)) :
    load_state st dp = (migrateState j).getD (.obj (freshFields dp)) := by
  unfold load_state
  rw [get_state_file_path_eq h]
  dsimp only
  rw [hst]

theorem load_state_stateFields {dp : String} (h : dp ≠ "") {st : Store}
    {l : List String} {c : Bool}
    (hst : st (spath dp) = some (.parsed (.obj (stateFields dp l c)))) :
    load_state st dp = .obj (stateFields dp l c) := by
  rw [load_state_parsed h hst, migrateState_stateFields]
  rfl

theorem dirMismatch_stateFields (dp : String) (l : List String) (c : Bool) :
    dirMismatch (stateFields dp l c) dp = false := by
  unfold dirMismatch
  rw [stateFields_dir]
  simp [flatEq]

theorem applyResets_noop (st : Store) (dp rodc : String) (l : List String) (c : Bool) :
    applyResets st dp rodc false (stateFields dp l c) = (st, stateFields dp l c) := by
  unfold applyResets
  rw [dirMismatch_stateFields]
  rfl

theorem afterLoadState_stateFields (w : World) (st : Store) (dp : String)
    (cs : List String) {l : List String} (c : Bool) (hl : l.Nodup) :
    afterLoadState w st dp cs (stateFields dp l c) =
      afterDiff w st dp cs (stateFields dp l c) (l.map .str) := by
  unfold afterLoadState
  rw [stateFields_pf]
  dsimp only [Option.getD]
  rw [pySet_map_str hl]

/-! ### The load-attempt loop -/

theorem attemptLoad_hit (w : World) (p : String) (rest : List String)
    (procd : List Json) (hex : w.existsAtLoad p = true) (hok : w.loadOk p = true) :
    attemptLoad w (p :: rest) procd = (psAdd procd (.str p), some p) := by
  simp [attemptLoad, hex, hok, load_image_as_tensor]

theorem attemptLoad_skip (w : World) (p : String) (rest : List String)
    (procd : List Json) (hex : w.existsAtLoad p = false) :
    attemptLoad w (p :: rest) procd = attemptLoad w rest (psAdd procd (.str p)) := by
  simp [attemptLoad, hex]

theorem attemptLoad_fail (w : World) (p : String) (rest : List String)
    (procd : List Json) (hex : w.existsAtLoad p = true) (hok : w.loadOk p = false) :
    attemptLoad w (p :: rest) procd = attemptLoad w rest (psAdd procd (.str p)) := by
  simp [attemptLoad, hex, hok, load_image_as_tensor]

/-! ### Rewriting the unprocessed diff -/

theorem filter_unprocessed (cs l : List String) :
    cs.filter (fun p => ! pmem (.str p) (l.map .str)) =
      cs.filter (fun p => decide (p ∉ l)) := by
  apply List.filter_congr
  intro x _
  by_cases hx : x ∈ l
  · simp [(pmem_str_map x l).mpr hx, hx]
  · have hm : pmem (.str x) (l.map .str) = false := by
      rw [Bool.eq_false_iff]
      intro hmem
      exact hx ((pmem_str_map x l).mp hmem)
    simp [hm, hx]

theorem filter_not_mem_take (cs : List String) (h : cs.Nodup) (k : Nat) :
    cs.filter (fun p => decide (p ∉ cs.take k)) = cs.drop k := by
  induction cs generalizing k with
  | nil => simp
  | cons a t ih =>
    cases k with
    | zero => simp
    | succ k =>
      rw [List.take_succ_cons, List.drop_succ_cons,
        List.filter_cons_of_neg (by simp)]
      have hcongr : t.filter (fun p => decide (p ∉ a :: t.take k)) =
          t.filter (fun p => decide (p ∉ t.take k)) := by
        apply List.filter_congr
        intro x hx
        have hxa : x ≠ a := by
          rintro rfl
          exact (List.nodup_cons.mp h).1 hx
        simp [List.mem_cons, hxa]
      rw [hcongr, ih (List.nodup_cons.mp h).2 k]

/-! ### afterDiff branch characterizations -/

theorem afterDiff_all (w : World) (st : Store) (dp : String) (cs : List String)
    (kvs : List (String × Json)) (s : List Json)
    (hfil : cs.filter (fun p => ! pmem (.str p) s) = []) :
    afterDiff w st dp cs kvs s =
      (save_state st dp (.obj (setField kvs "completed" (.bool true))),
       .ok ⟨none, none, "", "", s.length, cs.length, false,
         allProcessedStatus s.length⟩) := by
  unfold afterDiff
  rw [hfil]
  rfl

theorem afterDiff_advance (w : World) (st : Store) (dp : String) (cs : List String)
    (kvs : List (String × Json)) (l : List String) (h' : String) (rest : List String)
    (hfil : cs.filter (fun p => ! pmem (.str p) (l.map .str)) = h' :: rest)
    (hh : h' ∉ l)
    (hex : w.existsAtLoad h' = true) (hok : w.loadOk h' = true) :
    afterDiff w st dp cs kvs (l.map .str) =
      (save_state st dp (.obj (setField (setField kvs "processed_files"
          (.arr ((l ++ [h']).map .str))) "completed"
          (.bool (decide ((l ++ [h']).length ≥ cs.length))))),
       .ok ⟨some h', some h', h', basename h', (l ++ [h']).length, cs.length, true,
         processingStatus (basename h') ((l ++ [h']).length) cs.length
           ((cs.length : Int) - ((l ++ [h']).length : Int))⟩) := by
  unfold afterDiff
  rw [hfil, attemptLoad_hit w h' rest _ hex hok, psAdd_str_not_mem hh]
  simp only [List.length_map]
  rfl

theorem afterDiff_ok (w : World) (st : Store) (dp : String) (cs : List String)
    (kvs : List (String × Json)) (s : List Json) :
    ∃ st' r, afterDiff w st dp cs kvs s = (st', .ok r) := by
  unfold afterDiff
  split
  · exact ⟨_, _, rfl⟩
  · split
    · exact ⟨_, _, rfl⟩
    · exact ⟨_, _, rfl⟩

theorem afterDiff_completed_iff {w : World} {st : Store} {dp : String}
    {cs : List String} {kvs : List (String × Json)} {s : List Json}
    {st' : Store} {r : Ret}
    (h : afterDiff w st dp cs kvs s = (st', .ok r)) :
    r.completed = r.image.isSome := by
  unfold afterDiff at h
  split at h
  · injection h with h1 h2
    injection h2 with h3
    subst h3
    rfl
  · split at h <;>
      (injection h with h1 h2; injection h2 with h3; subst h3; rfl)

/-! ### One full invocation over a well-formed flat-scan state -/

theorem candidates_flat (w : World) (dp : String) :
    candidates w dp "disable" = scan_directory_for_images w dp := rfl

theorem invoke_flat (w : World) (st : Store) {dp : String} (rodc : String)
    (hdp : dp ≠ "") (hex : w.dirExists = true)
    {l : List String} {c : Bool} (hl : l.Nodup)
    (hload : load_state st dp = .obj (stateFields dp l c))
    (hne : scan_directory_for_images w dp ≠ []) :
    load_next_image w st dp "disable" rodc "false" =
      afterDiff w st dp (scan_directory_for_images w dp)
        (stateFields dp l c) (l.map .str) := by
  unfold load_next_image
  rw [if_neg (by simp [hdp, hex])]
  rw [candidates_flat]
  rw [if_neg (by simpa using hne)]
  rw [hload]
  dsimp only
  have hfalse : decide (("false" : String) = "true") = false := rfl
  rw [hfalse, applyResets_noop]
  exact afterLoadState_stateFields w st dp _ c hl

/-! ### Iterated invocations: fresh start, flat scan, default options -/

/-- The store after `k` invocations of the engine on `dp` with the default
options (flat scan, auto-reset enabled, no manual reset), starting with no
persisted record. -/
def iterStore (w : World) (dp : String) : Nat → Store
  | 0 => emptyStore
  | k + 1 => (load_next_image w (iterStore w dp k) dp "disable" "enable" "false").1

/-- The outcome of invocation number `k + 1` in that sequence. -/
def callRes (w : World) (dp : String) (k : Nat) : Except PyErr Ret :=
  (load_next_image w (iterStore w dp k) dp "disable" "enable" "false").2

theorem scan_sorted (w : World) (dp : String) :
    (scan_directory_for_images w dp).Sorted sLE := by
  unfold scan_directory_for_images
  split
  · exact List.sorted_nil
  · exact sortStrings_sorted _

theorem iterStore_spec (w : World) {dp : String} (hdp : dp ≠ "")
    (hex : w.dirExists = true)
    (hnd : (scan_directory_for_images w dp).Nodup)
    (hne : scan_directory_for_images w dp ≠ [])
    (hgood : ∀ p ∈ scan_directory_for_images w dp,
      w.existsAtLoad p = true ∧ w.loadOk p = true) :
    ∀ k, k ≤ (scan_directory_for_images w dp).length →
      ∃ c, load_state (iterStore w dp k) dp =
        .obj (stateFields dp ((scan_directory_for_images w dp).take k) c) := by
  intro k
  induction k with
  | zero =>
    intro _
    exact ⟨false, load_state_none hdp rfl⟩
  | succ k ih =>
    intro hk1
    have hk : k < (scan_directory_for_images w dp).length := hk1
    obtain ⟨c, hload⟩ := ih (Nat.le_of_lt hk)
    have hlnd : ((scan_directory_for_images w dp).take k).Nodup :=
      hnd.sublist (List.take_sublist _ _)
    have hfil : (scan_directory_for_images w dp).filter
        (fun p => ! pmem (.str p) (((scan_directory_for_images w dp).take k).map .str)) =
        (scan_directory_for_images w dp)[k] ::
          (scan_directory_for_images w dp).drop (k + 1) := by
      rw [filter_unprocessed, filter_not_mem_take _ hnd, List.drop_eq_getElem_cons hk]
    have hh : (scan_directory_for_images w dp)[k] ∉
        (scan_directory_for_images w dp).take k := by
      have hmem : (scan_directory_for_images w dp)[k] ∈
          (scan_directory_for_images w dp).filter
            (fun p => ! pmem (.str p)
              (((scan_directory_for_images w dp).take k).map .str)) := by
        rw [hfil]
        exact List.mem_cons_self _ _
      rw [filter_unprocessed] at hmem
      exact of_decide_eq_true (List.mem_filter.mp hmem).2
    have hgk := hgood _ (List.getElem_mem hk)
    have hinv : iterStore w dp (k + 1) =
        save_state (iterStore w dp k) dp
          (.obj (stateFields dp ((scan_directory_for_images w dp).take (k + 1))
            (decide (((scan_directory_for_images w dp).take k ++
              [(scan_directory_for_images w dp)[k]]).length ≥
                (scan_directory_for_images w dp).length)))) := by
      show (load_next_image w (iterStore w dp k) dp "disable" "enable" "false").1 = _
      rw [invoke_flat w (iterStore w dp k) "enable" hdp hex hlnd hload hne]
      rw [afterDiff_advance w (iterStore w dp k) dp _ _ _ _ _ hfil hh hgk.1 hgk.2]
      rw [setField_pf_completed_stateFields]
      rw [List.take_concat_get']
    refine ⟨decide (((scan_directory_for_images w dp).take k ++
      [(scan_directory_for_images w dp)[k]]).length ≥
        (scan_directory_for_images w dp).length), ?_⟩
    rw [hinv]
    exact load_state_stateFields hdp (save_state_read hdp _ _)

theorem callRes_advance (w : World) {dp : String} (hdp : dp ≠ "")
    (hex : w.dirExists = true)
    (hnd : (scan_directory_for_images w dp).Nodup)
    (hne : scan_directory_for_images w dp ≠ [])
    (hgood : ∀ p ∈ scan_directory_for_images w dp,
      w.existsAtLoad p = true ∧ w.loadOk p = true)
    (k : Nat) (hk : k < (scan_directory_for_images w dp).length) :
    callRes w dp k =
      .ok ⟨some ((scan_directory_for_images w dp)[k]),
        some ((scan_directory_for_images w dp)[k]),
        (scan_directory_for_images w dp)[k],
        basename ((scan_directory_for_images w dp)[k]),
        k + 1, (scan_directory_for_images w dp).length, true,
        processingStatus (basename ((scan_directory_for_images w dp)[k])) (k + 1)
          (scan_directory_for_images w dp).length
          (((scan_directory_for_images w dp).length : Int) - ((k + 1 : Nat) : Int))⟩ := by
  obtain ⟨c, hload⟩ := iterStore_spec w hdp hex hnd hne hgood k (Nat.le_of_lt hk)
  have hlnd : ((scan_directory_for_images w dp).take k).Nodup :=
    hnd.sublist (List.take_sublist _ _)
  have hfil : (scan_directory_for_images w dp).filter
      (fun p => ! pmem (.str p) (((scan_directory_for_images w dp).take k).map .str)) =
      (scan_directory_for_images w dp)[k] ::
        (scan_directory_for_images w dp).drop (k + 1) := by
    rw [filter_unprocessed, filter_not_mem_take _ hnd, List.drop_eq_getElem_cons hk]
  have hh : (scan_directory_for_images w dp)[k] ∉
      (scan_directory_for_images w dp).take k := by
    have hmem : (scan_directory_for_images w dp)[k] ∈
        (scan_directory_for_images w dp).filter
          (fun p => ! pmem (.str p)
            (((scan_directory_for_images w dp).take k).map .str)) := by
      rw [hfil]
      exact List.mem_cons_self _ _
    rw [filter_unprocessed] at hmem
    exact of_decide_eq_true (List.mem_filter.mp hmem).2
  have hgk := hgood _ (List.getElem_mem hk)
  have hlen : ((scan_directory_for_images w dp).take k ++
      [(scan_directory_for_images w dp)[k]]).length = k + 1 := by
    rw [List.take_concat_get', List.length_take]
    omega
  show (load_next_image w (iterStore w dp k) dp "disable" "enable" "false").2 = _
  rw [invoke_flat w (iterStore w dp k) "enable" hdp hex hlnd hload hne]
  rw [afterDiff_advance w (iterStore w dp k) dp _ _ _ _ _ hfil hh hgk.1 hgk.2]
  rw [hlen]

theorem callRes_final (w : World) {dp : String} (hdp : dp ≠ "")
    (hex : w.dirExists = true)
    (hnd : (scan_directory_for_images w dp).Nodup)
    (hne : scan_directory_for_images w dp ≠ [])
    (hgood : ∀ p ∈ scan_directory_for_images w dp,
      w.existsAtLoad p = true ∧ w.loadOk p = true) :
    callRes w dp (scan_directory_for_images w dp).length =
      .ok ⟨none, none, "", "", (scan_directory_for_images w dp).length,
        (scan_directory_for_images w dp).length, false,
        allProcessedStatus (scan_directory_for_images w dp).length⟩ := by
  obtain ⟨c, hload⟩ := iterStore_spec w hdp hex hnd hne hgood
    (scan_directory_for_images w dp).length le_rfl
  have hlnd : ((scan_directory_for_images w dp).take
      (scan_directory_for_images w dp).length).Nodup :=
    hnd.sublist (List.take_sublist _ _)
  have hfil : (scan_directory_for_images w dp).filter
      (fun p => ! pmem (.str p) (((scan_directory_for_images w dp).take
        (scan_directory_for_images w dp).length).map .str)) = [] := by
    rw [filter_unprocessed, filter_not_mem_take _ hnd, List.drop_length]
  show (load_next_image w (iterStore w dp (scan_directory_for_images w dp).length)
    dp "disable" "enable" "false").2 = _
  rw [invoke_flat w _ "enable" hdp hex hlnd hload hne]
  rw [afterDiff_all _ _ _ _ _ _ hfil]
  simp only [List.length_map, List.take_length]

/-! ### Concrete worlds used by witnesses and counterexamples -/

/-- A directory holding exactly the three image files of the spec scenario. -/
def threeImageWorld : World where
  dirExists := true
  listing := [⟨"b.png", true⟩, ⟨"a.png", true⟩, ⟨"c.jpg", true⟩]
  walk := []
  existsAtLoad := fun _ => true
  loadOk := fun _ => true

/-- An existing directory with no entries at all. -/
def emptyDirWorld : World where
  dirExists := true
  listing := []
  walk := []
  existsAtLoad := fun _ => true
  loadOk := fun _ => true

/-! ### Claim C1 -/

/-- C1 (amended: the candidate set is nonempty, N ≥ 1).  For every directory
whose flat candidate set is a duplicate-free nonempty list of N paths that
all exist and load successfully, unchanged across calls, with no reset
requested and no prior record: invocation k + 1 (k < N) returns candidate
number k with counts (k + 1, N) and the valid-item flag set; the returned
paths are pairwise distinct and in ascending lexicographic order of full
path; and invocation N + 1 returns the all-processed result with
current_index = total_count = N and no payload. -/
theorem c1_iteration_order (w : World) (dp : String) (hdp : dp ≠ "")
    (hex : w.dirExists = true)
    (hnd : (scan_directory_for_images w dp).Nodup)
    (hne : scan_directory_for_images w dp ≠ [])
    (hgood : ∀ p ∈ scan_directory_for_images w dp,
      w.existsAtLoad p = true ∧ w.loadOk p = true) :
    (∀ k (hk : k < (scan_directory_for_images w dp).length),
      callRes w dp k =
        .ok ⟨some ((scan_directory_for_images w dp)[k]),
          some ((scan_directory_for_images w dp)[k]),
          (scan_directory_for_images w dp)[k],
          basename ((scan_directory_for_images w dp)[k]),
          k + 1, (scan_directory_for_images w dp).length, true,
          processingStatus (basename ((scan_directory_for_images w dp)[k])) (k + 1)
            (scan_directory_for_images w dp).length
            (((scan_directory_for_images w dp).length : Int) - ((k + 1 : Nat) : Int))⟩) ∧
    (∀ j k (hj : j < (scan_directory_for_images w dp).length)
      (hk : k < (scan_directory_for_images w dp).length), j < k →
        sLE ((scan_directory_for_images w dp)[j]) ((scan_directory_for_images w dp)[k]) ∧
        (scan_directory_for_images w dp)[j] ≠ (scan_directory_for_images w dp)[k]) ∧
    callRes w dp (scan_directory_for_images w dp).length =
      .ok ⟨none, none, "", "", (scan_directory_for_images w dp).length,
        (scan_directory_for_images w dp).length, false,
        allProcessedStatus (scan_directory_for_images w dp).length⟩ := by
  refine ⟨callRes_advance w hdp hex hnd hne hgood, ?_,
    callRes_final w hdp hex hnd hne hgood⟩
  intro j k hj hk hjk
  constructor
  · exact (scan_sorted w dp).rel_get_of_lt
      (show (⟨j, hj⟩ : Fin (scan_directory_for_images w dp).length) < ⟨k, hk⟩ from hjk)
  · intro heq
    exact absurd (hnd.getElem_inj_iff.mp heq) (Nat.ne_of_lt hjk)

/-- C1 counterexample for N = 0: an existing directory with zero eligible
files.  The claim demands that the (N+1)-th = first invocation return the
all-processed result with counts (0, 0); the code instead returns the
distinct empty-scan result ("No images found in directory"), whose status is
not the all-processed status, and without persisting anything. -/
theorem c1_empty_counterexample :
    callRes emptyDirWorld "d" 0 =
      .ok ⟨none, none, "", "", 0, 0, false, "No images found in directory"⟩ ∧
    "No images found in directory" ≠ allProcessedStatus 0 :=
  ⟨rfl, by decide⟩

/-- C1 witness: the spec scenario [a.png, b.png, c.jpg]. -/
theorem c1_witness :
    callRes threeImageWorld "d" 0 = .ok ⟨some "d/a.png", some "d/a.png", "d/a.png",
      "a.png", 1, 3, true, processingStatus "a.png" 1 3 2⟩ ∧
    callRes threeImageWorld "d" 3 = .ok ⟨none, none, "", "", 3, 3, false,
      allProcessedStatus 3⟩ := by
  have h := c1_iteration_order threeImageWorld "d" (by decide) rfl (by decide)
    (by decide) (by decide)
  exact ⟨h.1 0 (by decide), h.2.2⟩

/-! ### Claim C5 -/

/-- C5: if, during an invocation over candidates [pa, pb, pc] with pa already
processed, the first unprocessed candidate pb no longer exists on disk when
its load is attempted, pb is marked processed without a load attempt and
iteration continues; the following candidate pc loads successfully and is
returned as the payload with current_index = 3 counting both the skipped and
the loaded path (and total_count = 3). -/
theorem c5_skip_missing (w : World) (st : Store) (dp rodc : String)
    (pa pb pc : String) (c : Bool)
    (hdp : dp ≠ "") (hex : w.dirExists = true)
    (hscan : scan_directory_for_images w dp = [pa, pb, pc])
    (hload : load_state st dp = .obj (stateFields dp [pa] c))
    (hba : pb ≠ pa) (hca : pc ≠ pa) (hcb : pc ≠ pb)
    (hbex : w.existsAtLoad pb = false)
    (hcex : w.existsAtLoad pc = true) (hcok : w.loadOk pc = true) :
    load_next_image w st dp "disable" rodc "false" =
      (save_state st dp (.obj (stateFields dp [pa, pb, pc] true)),
       .ok ⟨some pc, some pc, pc, basename pc, 3, 3, true,
         processingStatus (basename pc) 3 3 0⟩) := by
  have hne : scan_directory_for_images w dp ≠ [] := by simp [hscan]
  rw [invoke_flat w st rodc hdp hex (List.nodup_singleton pa) hload hne, hscan]
  have hfil : ([pa, pb, pc]).filter
      (fun p => ! pmem (.str p) ([pa].map .str)) = [pb, pc] := by
    rw [filter_unprocessed]
    simp [List.filter, hba, hca]
  unfold afterDiff
  rw [hfil]
  rw [attemptLoad_skip w pb [pc] _ hbex,
    psAdd_str_not_mem (by simp [hba] : pb ∉ [pa])]
  simp only [List.singleton_append]
  rw [attemptLoad_hit w pc [] _ hcex hcok,
    psAdd_str_not_mem (by simp [hca, hcb] : pc ∉ [pa, pb])]
  rw [if_neg (show ¬ ([pb, pc].isEmpty = true) by simp)]
  dsimp only
  rw [setField_pf_completed_stateFields]
  simp only [List.length_map]
  rfl

/-- The world of the C5 race scenario: b.png disappears between scan and
load. -/
def raceWorld : World where
  dirExists := true
  listing := [⟨"b.png", true⟩, ⟨"a.png", true⟩, ⟨"c.jpg", true⟩]
  walk := []
  existsAtLoad := fun p => p != "d/b.png"
  loadOk := fun _ => true

/-- A store whose record for "d" already holds a.png as processed. -/
def raceStore : Store := fun k =>
  if k = spath "d" then
    some (.parsed (.obj (stateFields "d" ["d/a.png"] false)))
  else none

/-- C5 witness: the concrete spec scenario. -/
theorem c5_witness :
    load_next_image raceWorld raceStore "d" "disable" "enable" "false" =
      (save_state raceStore "d"
        (.obj (stateFields "d" ["d/a.png", "d/b.png", "d/c.jpg"] true)),
       .ok ⟨some "d/c.jpg", some "d/c.jpg", "d/c.jpg", "c.jpg", 3, 3, true,
         processingStatus "c.jpg" 3 3 0⟩) :=
  c5_skip_missing raceWorld raceStore "d" "enable" "d/a.png" "d/b.png" "d/c.jpg"
    false (by decide) rfl (by decide) rfl (by decide) (by decide) (by decide)
    rfl rfl rfl

/-! ### Claim C2 -/

/-- C2 (amended).  After a directory has reached the all-processed state, if
exactly one new eligible file x (existing and loadable) is added, the next
invocation computes a non-empty unprocessed set — so the all-processed result
is not returned — and returns x as its payload; its returned completed output
is therefore true (the valid-item flag), not false. -/
theorem c2_growth_after_completion (w : World) (st : Store) (dp rodc : String)
    (l : List String) (c : Bool) (x : String)
    (hdp : dp ≠ "") (hex : w.dirExists = true) (hl : l.Nodup)
    (hload : load_state st dp = .obj (stateFields dp l c))
    (hfil : (scan_directory_for_images w dp).filter (fun p => decide (p ∉ l)) = [x])
    (hxex : w.existsAtLoad x = true) (hxok : w.loadOk x = true) :
    (scan_directory_for_images w dp).filter (fun p => decide (p ∉ l)) ≠ [] ∧
    load_next_image w st dp "disable" rodc "false" =
      (save_state st dp (.obj (stateFields dp (l ++ [x])
        (decide ((l ++ [x]).length ≥ (scan_directory_for_images w dp).length)))),
       .ok ⟨some x, some x, x, basename x, (l ++ [x]).length,
         (scan_directory_for_images w dp).length, true,
         processingStatus (basename x) ((l ++ [x]).length)
           (scan_directory_for_images w dp).length
           (((scan_directory_for_images w dp).length : Int) -
             ((l ++ [x]).length : Int))⟩) := by
  have hxmem : x ∈ (scan_directory_for_images w dp).filter (fun p => decide (p ∉ l)) := by
    rw [hfil]
    exact List.mem_cons_self x []
  have hne : scan_directory_for_images w dp ≠ [] := by
    intro h0
    rw [h0] at hfil
    exact List.noConfusion hfil
  have hh : x ∉ l := of_decide_eq_true (List.mem_filter.mp hxmem).2
  have hfil2 : (scan_directory_for_images w dp).filter
      (fun p => ! pmem (.str p) (l.map .str)) = x :: [] := by
    rw [filter_unprocessed, hfil]
  refine ⟨by rw [hfil]; exact fun h => List.noConfusion h, ?_⟩
  rw [invoke_flat w st rodc hdp hex hl hload hne]
  rw [afterDiff_advance w st dp _ _ _ _ _ hfil2 hh hxex hxok]
  rw [setField_pf_completed_stateFields]

/-- A directory holding only a.png. -/
def oneImageWorld : World where
  dirExists := true
  listing := [⟨"a.png", true⟩]
  walk := []
  existsAtLoad := fun _ => true
  loadOk := fun _ => true

/-- The same directory after b.png has been added. -/
def twoImageWorld : World where
  dirExists := true
  listing := [⟨"a.png", true⟩, ⟨"b.png", true⟩]
  walk := []
  existsAtLoad := fun _ => true
  loadOk := fun _ => true

/-- C2 counterexample: call 2 on a one-image directory returns the
all-processed result; after adding b.png call 3 computes a non-empty
unprocessed set but returns completed = true (the valid-item flag), not
completed = false as the claim requires. -/
theorem c2_counterexample :
    callRes oneImageWorld "d" 1 =
      .ok ⟨none, none, "", "", 1, 1, false, allProcessedStatus 1⟩ ∧
    (load_next_image twoImageWorld (iterStore oneImageWorld "d" 2) "d"
      "disable" "enable" "false").2 =
      .ok ⟨some "d/b.png", some "d/b.png", "d/b.png", "b.png", 2, 2, true,
        processingStatus "b.png" 2 2 0⟩ :=
  ⟨rfl, rfl⟩

/-- C2 witness: the same growth scenario, through the amended theorem. -/
theorem c2_witness :
    load_next_image twoImageWorld (iterStore oneImageWorld "d" 2) "d"
      "disable" "enable" "false" =
      (save_state (iterStore oneImageWorld "d" 2) "d"
        (.obj (stateFields "d" ["d/a.png", "d/b.png"] true)),
       .ok ⟨some "d/b.png", some "d/b.png", "d/b.png", "b.png", 2, 2, true,
         processingStatus "b.png" 2 2 0⟩) :=
  (c2_growth_after_completion twoImageWorld (iterStore oneImageWorld "d" 2) "d"
    "enable" ["d/a.png"] true "d/b.png" (by decide) rfl (by decide) rfl rfl
    rfl rfl).2

/-! ### Claim C3 -/

theorem load_next_image_ok_completed {w : World} {st : Store}
    {dp psub rodc rprog : String} {st' : Store} {r : Ret}
    (h : load_next_image w st dp psub rodc rprog = (st', .ok r)) :
    r.completed = r.image.isSome := by
  unfold load_next_image at h
  split at h
  · injection h with h1 h2
    injection h2 with h3
    subst h3
    rfl
  · split at h
    · injection h with h1 h2
      injection h2 with h3
      subst h3
      rfl
    · split at h
      · rename_i kvs0 heq
        rcases happ : applyResets st dp rodc (decide (rprog = "true")) kvs0 with ⟨st1, kvs1⟩
        rw [happ] at h
        dsimp only at h
        unfold afterLoadState at h
        split at h
        · injection h with h1 h2
          exact Except.noConfusion h2
        · exact afterDiff_completed_iff h
      · injection h with h1 h2
        exact Except.noConfusion h2

/-- C3: the returned completed output of load_next_image is true exactly when
that same call returns a payload — every invocation returning a payload
reports completed = true, and every payload-less invocation (invalid
directory, empty scan, all processed, all remaining loads failed) reports
completed = false. -/
theorem c3_completed_iff_payload (w : World) (st : Store)
    (dp psub rodc rprog : String) (st' : Store) (r : Ret)
    (h : load_next_image w st dp psub rodc rprog = (st', .ok r)) :
    r.completed = true ↔ r.image.isSome = true := by
  rw [load_next_image_ok_completed h]

/-- C3 witness: the first call on the three-image directory. -/
theorem c3_witness :
    ((⟨some "d/a.png", some "d/a.png", "d/a.png", "a.png", 1, 3, true,
      processingStatus "a.png" 1 3 2⟩ : Ret).completed = true ↔
     (⟨some "d/a.png", some "d/a.png", "d/a.png", "a.png", 1, 3, true,
      processingStatus "a.png" 1 3 2⟩ : Ret).image.isSome = true) :=
  c3_completed_iff_payload threeImageWorld emptyStore "d" "disable" "enable"
    "false"
    (load_next_image threeImageWorld emptyStore "d" "disable" "enable" "false").1
    ⟨some "d/a.png", some "d/a.png", "d/a.png", "a.png", 1, 3, true,
      processingStatus "a.png" 1 3 2⟩ rfl

/-! ### Claim C8 -/

/-- C8: loading any stored record of the legacy shape — an object holding an
integer current_index and no processed_files key — succeeds: the loaded state
has processed_files = [] and no longer contains current_index. -/
theorem c8_legacy_migration (st : Store) (dp : String)
    (kvs : List (String × Json)) (n : Int) (hdp : dp ≠ "")
    (hst : st (spath dp) = some (.parsed (.obj kvs)))
    (hidx : lookupField kvs "current_index" = some (.num n))
    (hpf : lookupField kvs "processed_files" = none) :
    ∃ kvs', load_state st dp = .obj kvs' ∧
      lookupField kvs' "processed_files" = some (.arr []) ∧
      lookupField kvs' "current_index" = none := by
  rw [load_state_parsed hdp hst]
  have h1 : pyContainsKey (.obj kvs) "current_index" = some true := by
    unfold pyContainsKey
    dsimp only
    rw [any_of_lookupField_eq_some hidx]
  have h2 : pyContainsKey (.obj kvs) "processed_files" = some false := by
    unfold pyContainsKey
    dsimp only
    rw [any_of_lookupField_eq_none hpf]
  have hmig : migrateState (.obj kvs) =
      some (.obj (removeField (setField kvs "processed_files" (.arr []))
        "current_index")) := by
    unfold migrateState
    rw [h1]
    simp only [Option.bind_some]
    rw [h2]
    rfl
  rw [hmig]
  refine ⟨_, rfl, ?_, ?_⟩
  · rw [lookupField_removeField_ne _ (by decide), lookupField_setField_self]
  · exact lookupField_removeField_self _ _

/-- The stored legacy record of the spec example. -/
def legacyStore : Store := fun k =>
  if k = spath "d" then some (.parsed (.obj [("current_index", .num 3)])) else none

/-- C8 witness: the record {"current_index": 3}. -/
theorem c8_witness :
    ∃ kvs', load_state legacyStore "d" = .obj kvs' ∧
      lookupField kvs' "processed_files" = some (.arr []) ∧
      lookupField kvs' "current_index" = none :=
  c8_legacy_migration legacyStore "d" [("current_index", .num 3)] 3
    (by decide) rfl rfl rfl

/-! ### Claim C6 -/

/-- A directory whose only entry is a subdirectory named sub.png. -/
def subdirWorld : World where
  dirExists := true
  listing := [⟨"sub.png", false⟩]
  walk := []
  existsAtLoad := fun _ => true
  loadOk := fun _ => true

/-- C6 counterexample: the flat scan returns the entry "sub.png" although it
is not a file (it is a subdirectory), because the source never checks the
file bit — the claim that no non-file entry appears in the result is false. -/
theorem c6_counterexample :
    scan_directory_for_images subdirWorld "d" = ["d/sub.png"] ∧
    ∀ e ∈ subdirWorld.listing, e.isFile = false :=
  ⟨rfl, by decide⟩

/-- C6 (amended): for every existing directory, the flat scan returns exactly
the immediate entries — regardless of whether they are files — whose names
end, case-insensitively, with a known image extension, joined to the
directory path and sorted lexicographically by full path. -/
theorem c6_flat_scan (w : World) (dp : String) (hex : w.dirExists = true) :
    (∀ p, p ∈ scan_directory_for_images w dp ↔
      ∃ e ∈ w.listing, isImageName e.name = true ∧ p = pjoin dp e.name) ∧
    (scan_directory_for_images w dp).Sorted sLE := by
  constructor
  · intro p
    unfold scan_directory_for_images
    rw [if_neg (by simp [hex])]
    rw [mem_sortStrings]
    simp only [List.mem_map, List.mem_filter]
    constructor
    · rintro ⟨e, ⟨he, him⟩, rfl⟩
      exact ⟨e, he, him, rfl⟩
    · rintro ⟨e, he, him, rfl⟩
      exact ⟨e, ⟨he, him⟩, rfl⟩
  · exact scan_sorted w dp

/-- C6 witness: the three-image directory. -/
theorem c6_witness :
    ("d/a.png" ∈ scan_directory_for_images threeImageWorld "d" ↔
      ∃ e ∈ threeImageWorld.listing, isImageName e.name = true ∧
        "d/a.png" = pjoin "d" e.name) ∧
    (scan_directory_for_images threeImageWorld "d").Sorted sLE :=
  ⟨(c6_flat_scan threeImageWorld "d" rfl).1 "d/a.png",
   (c6_flat_scan threeImageWorld "d" rfl).2⟩

/-! ### Claim C7 -/

/-- Whether a JSON value is a string. -/
def strJson : Json → Bool
  | .str _ => true
  | _ => false

/-- A state dictionary whose processed_files value (if any) is a list of
strings — the only shape this engine itself ever persists. -/
def benignFields (kvs : List (String × Json)) : Bool :=
  match lookupField kvs "processed_files" with
  | none => true
  | some (.arr l) => l.all strJson
  | some _ => false

/-- A persisted state-file content that cannot make the engine raise:
absent, unreadable/unparseable, or an object whose processed_files (if
present) is a list of strings. -/
def benignContent : Option StoredFile → Bool
  | none => true
  | some .corrupt => true
  | some (.parsed (.obj kvs)) => benignFields kvs
  | some (.parsed _) => false

theorem pySet_benign {kvs : List (String × Json)} (h : benignFields kvs = true) :
    ∃ s, pySet ((lookupField kvs "processed_files").getD (.arr [])) = some s := by
  unfold benignFields at h
  cases hlk : lookupField kvs "processed_files" with
  | none => exact ⟨[], rfl⟩
  | some v =>
    rw [hlk] at h
    cases v with
    | arr l =>
      have hall : l.all hashable = true := by
        rw [List.all_eq_true] at h ⊢
        intro x hx
        have := h x hx
        cases x <;> first | rfl | exact Bool.noConfusion this
      exact ⟨pyDedup l, by simp [pySet, hall]⟩
    | null => exact Bool.noConfusion h
    | bool b => exact Bool.noConfusion h
    | num n => exact Bool.noConfusion h
    | str s => exact Bool.noConfusion h
    | obj kvs2 => exact Bool.noConfusion h

theorem afterLoadState_ok {w : World} {st : Store} {dp : String}
    {cs : List String} {kvs : List (String × Json)}
    (h : benignFields kvs = true) :
    ∃ st' r, afterLoadState w st dp cs kvs = (st', .ok r) := by
  obtain ⟨s, hs⟩ := pySet_benign h
  unfold afterLoadState
  rw [hs]
  exact afterDiff_ok w st dp cs kvs s

theorem applyResets_benign (st : Store) (dp rodc : String) (b : Bool)
    (kvs0 : List (String × Json)) (h : benignFields kvs0 = true) :
    benignFields (applyResets st dp rodc b kvs0).2 = true := by
  unfold applyResets
  split
  · split
    · rfl
    · rfl
  · split
    · rfl
    · exact h

theorem migrateState_obj (kvs : List (String × Json)) :
    migrateState (.obj kvs) = some (
      if kvs.any (fun kv => kv.1 == "current_index") &&
         !(kvs.any (fun kv => kv.1 == "processed_files")) then
        .obj (removeField (setField kvs "processed_files" (.arr [])) "current_index")
      else .obj kvs) := by
  by_cases hidx : kvs.any (fun kv => kv.1 == "current_index") = true
  · by_cases hpf : kvs.any (fun kv => kv.1 == "processed_files") = true
    · simp [migrateState, pyContainsKey, hidx, hpf]
    · simp [migrateState, pyContainsKey, hidx, hpf]
  · simp [migrateState, pyContainsKey, hidx]

theorem load_state_benign {dp : String} (hdp : dp ≠ "") {st : Store}
    (hb : benignContent (st (spath dp)) = true) :
    ∃ kvs, load_state st dp = .obj kvs ∧ benignFields kvs = true := by
  cases hsf : st (spath dp) with
  | none => exact ⟨_, load_state_none hdp hsf, rfl⟩
  | some sf =>
    cases sf with
    | corrupt => exact ⟨_, load_state_corrupt hdp hsf, rfl⟩
    | parsed j =>
      rw [hsf] at hb
      cases j with
      | obj kvs =>
        have hbf : benignFields kvs = true := hb
        rw [load_state_parsed hdp hsf, migrateState_obj, Option.getD_some]
        by_cases hcond : (kvs.any (fun kv => kv.1 == "current_index") &&
            !(kvs.any (fun kv => kv.1 == "processed_files"))) = true
        · rw [if_pos hcond]
          refine ⟨_, rfl, ?_⟩
          unfold benignFields
          rw [lookupField_removeField_ne _ (by decide), lookupField_setField_self]
          rfl
        · rw [if_neg hcond]
          exact ⟨kvs, rfl, hbf⟩
      | null => exact Bool.noConfusion hb
      | bool b => exact Bool.noConfusion hb
      | num n => exact Bool.noConfusion hb
      | str s => exact Bool.noConfusion hb
      | arr l => exact Bool.noConfusion hb

/-- C7 (amended).  For every directory path, option values and world, if the
persisted state file for the directory is absent, unreadable, unparseable,
or parses to a JSON object whose processed_files entry (if present) is a
list of strings — every shape the engine itself ever writes — then
load_next_image raises no exception: it returns a structurally valid
8-tuple.  (A state file parsing to any other JSON shape, e.g. a top-level
array, escapes as an uncaught exception, refuting the unrestricted claim.) -/
theorem c7_no_exception_on_benign_state (w : World) (st : Store)
    (dp psub rodc rprog : String)
    (hb : benignContent (match get_state_file_path dp with
      | some f => st f
      | none => none) = true) :
    ∃ st' r, load_next_image w st dp psub rodc rprog = (st', .ok r) := by
  unfold load_next_image
  split
  · exact ⟨_, _, rfl⟩
  · rename_i h0
    have hdp : dp ≠ "" := fun h => h0 (Or.inl h)
    rw [get_state_file_path_eq hdp] at hb
    dsimp only at hb
    split
    · exact ⟨_, _, rfl⟩
    · obtain ⟨kvs, hload, hbf⟩ := load_state_benign hdp hb
      rw [hload]
      dsimp only
      rcases happ : applyResets st dp rodc (decide (rprog = "true")) kvs
        with ⟨st1, kvs1⟩
      have hb1 : benignFields kvs1 = true := by
        have h2 := applyResets_benign st dp rodc (decide (rprog = "true")) kvs hbf
        rw [happ] at h2
        exact h2
      exact afterLoadState_ok hb1

/-- A state file holding the well-formed JSON document []. -/
def arrayStateStore : Store := fun k =>
  if k = spath "d" then some (.parsed (.arr [])) else none

/-- C7 counterexample: with a state file containing the well-formed JSON
document [] (a top-level array), load_next_image on a valid non-empty
directory raises an uncaught AttributeError (state.get on a list) instead of
returning a valid 8-tuple. -/
theorem c7_counterexample :
    (load_next_image threeImageWorld arrayStateStore "d" "disable" "enable"
      "false").2 = .error .attributeError := rfl

/-- A state file that exists but cannot be read or parsed. -/
def corruptStore : Store := fun k =>
  if k = spath "d" then some .corrupt else none

/-- C7 witness: an unreadable state file is survived. -/
theorem c7_witness :
    ∃ st' r, load_next_image threeImageWorld corruptStore "d" "disable"
      "enable" "false" = (st', .ok r) :=
  c7_no_exception_on_benign_state threeImageWorld corruptStore "d" "disable"
    "enable" "false" rfl

/-! ### The shape of the state persisted by one invocation (claims C4, C10) -/

theorem foldl_psAdd_setLike : ∀ (l acc : List Json), setLike acc →
    (∀ x ∈ l, hashable x = true) → setLike (l.foldl psAdd acc) := by
  intro l
  induction l with
  | nil => intro acc h _; exact h
  | cons x rest ih =>
    intro acc h hall
    rw [List.foldl_cons]
    exact ih _ (psAdd_setLike h (hall x (by simp)))
      (fun y hy => hall y (by simp [hy]))

theorem pyDedup_setLike {l : List Json} (h : ∀ x ∈ l, hashable x = true) :
    setLike (pyDedup l) :=
  foldl_psAdd_setLike l [] setLike_nil h

theorem pySet_setLike {v : Json} {s : List Json} (h : pySet v = some s) :
    setLike s := by
  cases v with
  | null => exact Option.noConfusion h
  | bool b => exact Option.noConfusion h
  | num n => exact Option.noConfusion h
  | str s0 =>
    injection h with h1
    subst h1
    refine pyDedup_setLike ?_
    intro x hx
    rcases List.mem_map.mp hx with ⟨c, _, rfl⟩
    rfl
  | arr xs =>
    by_cases hall : xs.all hashable = true
    · rw [show pySet (.arr xs) = some (pyDedup xs) from by simp [pySet, hall]] at h
      injection h with h1
      subst h1
      exact pyDedup_setLike (List.all_eq_true.mp hall)
    · rw [show pySet (.arr xs) = none from by simp [pySet, hall]] at h
      exact Option.noConfusion h
  | obj kvs =>
    injection h with h1
    subst h1
    refine pyDedup_setLike ?_
    intro x hx
    rcases List.mem_map.mp hx with ⟨kv, _, rfl⟩
    rfl

theorem attemptLoad_setLike (w : World) : ∀ (un : List String) (ps : List Json),
    setLike ps →
    setLike (attemptLoad w un ps).1 ∧
      ∀ x, pmem x ps = true → pmem x (attemptLoad w un ps).1 = true := by
  intro un
  induction un with
  | nil => intro ps h; exact ⟨h, fun _ hx => hx⟩
  | cons p rest ih =>
    intro ps h
    unfold attemptLoad
    split
    · have hr := ih (psAdd ps (.str p)) (psAdd_setLike h rfl)
      exact ⟨hr.1, fun x hx => hr.2 x (psAdd_mono _ hx)⟩
    · split
      · exact ⟨psAdd_setLike h rfl, fun x hx => psAdd_mono _ hx⟩
      · have hr := ih (psAdd ps (.str p)) (psAdd_setLike h rfl)
        exact ⟨hr.1, fun x hx => hr.2 x (psAdd_mono _ hx)⟩

theorem afterDiff_stored {w : World} {st : Store} {dp : String} {cs : List String}
    {kvs : List (String × Json)} {s : List Json} {st' : Store} {r : Ret}
    (hdp : dp ≠ "") (hsl : setLike s)
    (hpy : pySet ((lookupField kvs "processed_files").getD (.arr [])) = some s)
    (h : afterDiff w st dp cs kvs s = (st', .ok r)) :
    ∃ kvs' s', st' (spath dp) = some (.parsed (.obj kvs')) ∧
      pySet ((lookupField kvs' "processed_files").getD (.arr [])) = some s' ∧
      r.current_index = s'.length ∧
      r.total_count = cs.length ∧
      lookupField kvs' "completed" = some (.bool
        (if (cs.filter (fun p => ! pmem (.str p) s)).isEmpty = true then true
         else decide (s'.length ≥ cs.length))) ∧
      (∀ x, pmem x s = true → pmem x s' = true) := by
  unfold afterDiff at h
  split at h
  · rename_i hemp
    injection h with h1 h2
    injection h2 with h3
    subst h3
    subst h1
    refine ⟨setField kvs "completed" (.bool true), s,
      save_state_read hdp _ _, ?_, rfl, rfl, ?_, fun _ hx => hx⟩
    · rw [lookupField_setField_ne _ _ (by decide)]
      exact hpy
    · rw [lookupField_setField_self, if_pos hemp]
  · rename_i hemp
    split at h
    · rename_i processed heq
      injection h with h1 h2
      injection h2 with h3
      subst h3
      subst h1
      have hal := attemptLoad_setLike w
        (cs.filter (fun p => ! pmem (.str p) s)) s hsl
      rw [heq] at hal
      refine ⟨_, processed, save_state_read hdp _ _, ?_, rfl, rfl, ?_, hal.2⟩
      · rw [lookupField_setField_ne _ _ (by decide), lookupField_setField_self]
        exact pySet_arr_setLike hal.1
      · rw [lookupField_setField_self, if_neg hemp]
    · rename_i processed current heq
      injection h with h1 h2
      injection h2 with h3
      subst h3
      subst h1
      have hal := attemptLoad_setLike w
        (cs.filter (fun p => ! pmem (.str p) s)) s hsl
      rw [heq] at hal
      refine ⟨_, processed, save_state_read hdp _ _, ?_, rfl, rfl, ?_, hal.2⟩
      · rw [lookupField_setField_ne _ _ (by decide), lookupField_setField_self]
        exact pySet_arr_setLike hal.1
      · rw [lookupField_setField_self, if_neg hemp]

theorem pmem_str_iff_mem {p : String} {s : List Json} :
    pmem (.str p) s = true ↔ Json.str p ∈ s := by
  constructor
  · intro h
    rcases List.any_eq_true.mp h with ⟨y, hy, hfe⟩
    rcases (flatEq_str_iff p y).mp hfe with rfl
    exact hy
  · intro h
    exact List.any_eq_true.mpr ⟨.str p, h, by simp [flatEq]⟩

/-- Every ok-returning invocation with a nonzero total_count went through the
diff-and-persist path: its result equals an afterDiff outcome over the fresh
candidates, some state dictionary, and the processed set read from it. -/
theorem load_next_image_via_afterDiff {w : World} {st : Store}
    {dp psub rodc rprog : String} {st' : Store} {r : Ret}
    (h : load_next_image w st dp psub rodc rprog = (st', .ok r))
    (htot : 1 ≤ r.total_count) :
    dp ≠ "" ∧ ∃ st1 kvs1 s1,
      pySet ((lookupField kvs1 "processed_files").getD (.arr [])) = some s1 ∧
      afterDiff w st1 dp (candidates w dp psub) kvs1 s1 = (st', .ok r) := by
  unfold load_next_image at h
  split at h
  · injection h with h1 h2
    injection h2 with h3
    exfalso
    subst h3
    exact absurd htot (by decide)
  · rename_i h0
    have hdp : dp ≠ "" := fun hh => h0 (Or.inl hh)
    split at h
    · injection h with h1 h2
      injection h2 with h3
      exfalso
      subst h3
      exact absurd htot (by decide)
    · split at h
      · rename_i kvs0 heq
        rcases happ : applyResets st dp rodc (decide (rprog = "true")) kvs0
          with ⟨st1, kvs1⟩
        rw [happ] at h
        dsimp only at h
        unfold afterLoadState at h
        split at h
        · injection h with h1 h2
          exact Except.noConfusion h2
        · rename_i s1 hpy
          exact ⟨hdp, st1, kvs1, s1, hpy, h⟩
      · injection h with h1 h2
        exact Except.noConfusion h2

/-! ### Claim C10 -/

/-- The two-image directory after b.png was removed again. -/
def shrunkWorld : World where
  dirExists := true
  listing := [⟨"a.png", true⟩]
  walk := []
  existsAtLoad := fun _ => true
  loadOk := fun _ => true

/-- A record holding a stale processed path d/x.png not present on disk. -/
def staleStore : Store := fun k =>
  if k = spath "d" then
    some (.parsed (.obj (stateFields "d" ["d/x.png"] true)))
  else none

/-- C10 counterexample: the empty-scan branch returns current_index = 0
without touching the persisted record, whose full processed set has size 1 —
so current_index does not always equal the size of the persisted set. -/
theorem c10_counterexample :
    (load_next_image emptyDirWorld staleStore "d" "disable" "enable" "false").2 =
      .ok ⟨none, none, "", "", 0, 0, false, "No images found in directory"⟩ ∧
    (load_next_image emptyDirWorld staleStore "d" "disable" "enable" "false").1
        (spath "d") =
      some (.parsed (.obj (stateFields "d" ["d/x.png"] true))) :=
  ⟨rfl, rfl⟩

/-- C10 (amended to the persisting branches).  Whenever an invocation returns
a result with total_count ≥ 1 (the AllProcessed, Advancing and Exhausted
branches), a record is persisted for the directory and the returned
current_index equals the size of its full processed set, stale paths
included; consequently the AllProcessed result is reachable with
current_index (2) strictly greater than total_count (1), by processing a
two-image directory to completion and then deleting one image. -/
theorem c10_current_index_full_set :
    (∀ (w : World) (st : Store) (dp psub rodc rprog : String) (st' : Store)
      (r : Ret),
      load_next_image w st dp psub rodc rprog = (st', .ok r) →
      1 ≤ r.total_count →
      ∃ kvs s, st' (spath dp) = some (.parsed (.obj kvs)) ∧
        pySet ((lookupField kvs "processed_files").getD (.arr [])) = some s ∧
        r.current_index = s.length) ∧
    (load_next_image shrunkWorld (iterStore twoImageWorld "d" 2) "d" "disable"
      "enable" "false").2 =
      .ok ⟨none, none, "", "", 2, 1, false, allProcessedStatus 2⟩ := by
  constructor
  · intro w st dp psub rodc rprog st' r h htot
    obtain ⟨hdp, st1, kvs1, s1, hpy, had⟩ := load_next_image_via_afterDiff h htot
    obtain ⟨kvs', s', hst, hpy', hidx, _, _, _⟩ :=
      afterDiff_stored hdp (pySet_setLike hpy) hpy had
    exact ⟨kvs', s', hst, hpy', hidx⟩
  · rfl

/-- C10 witness: the universal part applied to the stale-record scenario. -/
theorem c10_witness :
    ∃ kvs s, (load_next_image twoImageWorld staleStore "d" "disable" "enable"
        "false").1 (spath "d") = some (.parsed (.obj kvs)) ∧
      pySet ((lookupField kvs "processed_files").getD (.arr [])) = some s ∧
      (2 : Nat) = s.length :=
  c10_current_index_full_set.1 twoImageWorld staleStore "d" "disable" "enable"
    "false"
    (load_next_image twoImageWorld staleStore "d" "disable" "enable" "false").1
    ⟨some "d/a.png", some "d/a.png", "d/a.png", "a.png", 2, 2, true,
      processingStatus "a.png" 2 2 0⟩ rfl (by decide)

/-! ### Claim C4 -/

/-- C4 (amended): after every persisting invocation (total_count ≥ 1, no
exception) over a duplicate-free candidate set, the stored completed field
equals the cardinality comparison |processed set| ≥ total_count — not the
superset predicate processed ⊇ candidates that the claim states (those two
differ when the set holds stale paths; see the counterexample). -/
theorem c4_stored_completed (w : World) (st : Store)
    (dp psub rodc rprog : String) (st' : Store) (r : Ret)
    (h : load_next_image w st dp psub rodc rprog = (st', .ok r))
    (htot : 1 ≤ r.total_count)
    (hnd : (candidates w dp psub).Nodup) :
    ∃ kvs s, st' (spath dp) = some (.parsed (.obj kvs)) ∧
      pySet ((lookupField kvs "processed_files").getD (.arr [])) = some s ∧
      lookupField kvs "completed" = some (.bool (decide (s.length ≥ r.total_count))) := by
  obtain ⟨hdp, st1, kvs1, s1, hpy, had⟩ := load_next_image_via_afterDiff h htot
  obtain ⟨kvs', s', hst, hpy', _, htc, hcmp, hmono⟩ :=
    afterDiff_stored hdp (pySet_setLike hpy) hpy had
  refine ⟨kvs', s', hst, hpy', ?_⟩
  rw [hcmp, htc]
  by_cases hemp : ((candidates w dp psub).filter
      (fun p => ! pmem (.str p) s1)).isEmpty = true
  · rw [if_pos hemp]
    have hsub : (candidates w dp psub).map Json.str ⊆ s' := by
      intro x hx
      rcases List.mem_map.mp hx with ⟨p, hp, rfl⟩
      have hf := List.filter_eq_nil_iff.mp (List.isEmpty_iff.mp hemp) p hp
      have hp1 : pmem (.str p) s1 = true := by
        revert hf
        cases pmem (.str p) s1 <;> simp
      exact pmem_str_iff_mem.mp (hmono _ hp1)
    have hlen : (candidates w dp psub).length ≤ s'.length := by
      have hnd' : ((candidates w dp psub).map Json.str).Nodup :=
        hnd.map (fun a b hab => by injection hab)
      have := (List.subperm_of_subset hnd' hsub).length_le
      rwa [List.length_map] at this
    rw [decide_eq_true hlen]
  · rw [if_neg hemp]

/-- C4 counterexample: a stale processed path makes the code store
completed = true (2 ≥ 2) while candidate d/b.png is not in the processed
set, so the stored flag differs from the superset predicate. -/
theorem c4_counterexample :
    (load_next_image twoImageWorld staleStore "d" "disable" "enable"
      "false").1 (spath "d") =
      some (.parsed (.obj (stateFields "d" ["d/x.png", "d/a.png"] true))) ∧
    "d/b.png" ∈ scan_directory_for_images twoImageWorld "d" ∧
    "d/b.png" ∉ ["d/x.png", "d/a.png"] :=
  ⟨rfl, by decide, by decide⟩

/-- C4 witness: the amended statement at the stale-record scenario. -/
theorem c4_witness :
    ∃ kvs s, (load_next_image twoImageWorld staleStore "d" "disable" "enable"
        "false").1 (spath "d") = some (.parsed (.obj kvs)) ∧
      pySet ((lookupField kvs "processed_files").getD (.arr [])) = some s ∧
      lookupField kvs "completed" =
        some (.bool (decide (s.length ≥ (2 : Nat)))) :=
  c4_stored_completed twoImageWorld staleStore "d" "disable" "enable" "false"
    (load_next_image twoImageWorld staleStore "d" "disable" "enable" "false").1
    ⟨some "d/a.png", some "d/a.png", "d/a.png", "a.png", 2, 2, true,
      processingStatus "a.png" 2 2 0⟩ rfl (by decide) (by decide)

/-! ### Claim C9 -/

theorem pmem_map_str_elim {x : Json} {l : List String}
    (h : pmem x (l.map .str) = true) : ∃ q, x = Json.str q ∧ q ∈ l := by
  rcases List.any_eq_true.mp h with ⟨y, hy, hfe⟩
  rcases List.mem_map.mp hy with ⟨q, hq, rfl⟩
  cases x with
  | str a =>
    have : a = q := eq_of_beq hfe
    exact ⟨q, by rw [this], hq⟩
  | null => exact Bool.noConfusion hfe
  | bool b => exact Bool.noConfusion hfe
  | num n => exact Bool.noConfusion hfe
  | arr xs => exact Bool.noConfusion hfe
  | obj kvs => exact Bool.noConfusion hfe

theorem attemptLoad_str_ext (w : World) : ∀ (un : List String) (l : List String),
    l.Nodup →
    ∃ l' : List String, (attemptLoad w un (l.map .str)).1 = l'.map .str ∧
      l'.Nodup ∧ ∀ x ∈ l, x ∈ l' := by
  intro un
  induction un with
  | nil => intro l h; exact ⟨l, rfl, h, fun _ hx => hx⟩
  | cons p rest ih =>
    intro l h
    have hstep : ∀ res : List Json × Option String,
        res = attemptLoad w rest (psAdd (l.map .str) (.str p)) →
        ∃ l' : List String, res.1 = l'.map .str ∧ l'.Nodup ∧
          ∀ x ∈ l, x ∈ l' := by
      intro res hres
      by_cases hp : p ∈ l
      · rw [psAdd_str_mem hp] at hres
        obtain ⟨l', h1, h2, h3⟩ := ih l h
        exact ⟨l', by rw [hres]; exact h1, h2, h3⟩
      · rw [psAdd_str_not_mem hp] at hres
        obtain ⟨l', h1, h2, h3⟩ := ih (l ++ [p]) (by simp [List.nodup_append, h, hp])
        exact ⟨l', by rw [hres]; exact h1, h2,
          fun x hx => h3 x (List.mem_append_left _ hx)⟩
    unfold attemptLoad
    split
    · exact hstep _ rfl
    · split
      · by_cases hp : p ∈ l
        · rw [psAdd_str_mem hp]
          exact ⟨l, rfl, h, fun _ hx => hx⟩
        · rw [psAdd_str_not_mem hp]
          exact ⟨l ++ [p], rfl, by simp [List.nodup_append, h, hp],
            fun x hx => List.mem_append_left _ hx⟩
      · exact hstep _ rfl

/-- The full processed set recorded for a directory, as the next invocation
would read it (empty when no readable record exists). -/
def storedProcessed (st : Store) (dp : String) : List Json :=
  match st (spath dp) with
  | some (.parsed (.obj kvs)) =>
    (pySet ((lookupField kvs "processed_files").getD (.arr []))).getD []
  | _ => []

/-- The persisted record for a directory is absent or one this engine wrote:
a state dictionary over a duplicate-free list of string paths and the
directory itself. -/
def WFStore (st : Store) (dp : String) : Prop :=
  st (spath dp) = none ∨
    ∃ l c, st (spath dp) = some (.parsed (.obj (stateFields dp l c))) ∧ l.Nodup

theorem storedProcessed_stateFields {dp : String} (hdp : dp ≠ "") {st : Store}
    {l : List String} {b : Bool} (hnl : l.Nodup)
    (hst : st (spath dp) = some (.parsed (.obj (stateFields dp l b)))) :
    storedProcessed st dp = l.map .str := by
  unfold storedProcessed
  rw [hst]
  dsimp only
  rw [stateFields_pf]
  dsimp only [Option.getD]
  rw [pySet_map_str hnl]

theorem afterDiff_fst_stateFields (w : World) (st : Store) (dp : String)
    (cs : List String) (l : List String) (c : Bool) (hnl : l.Nodup) :
    ∃ l' b, (afterDiff w st dp cs (stateFields dp l c) (l.map .str)).1 =
      save_state st dp (.obj (stateFields dp l' b)) ∧ l'.Nodup ∧
      ∀ x ∈ l, x ∈ l' := by
  unfold afterDiff
  split
  · exact ⟨l, true, by rw [setField_completed_stateFields], hnl, fun _ hx => hx⟩
  · obtain ⟨l', hpl, hnl', hsub⟩ := attemptLoad_str_ext w
      (cs.filter (fun p => ! pmem (.str p) (l.map .str))) l hnl
    rcases hal : attemptLoad w
        (cs.filter (fun p => ! pmem (.str p) (l.map .str))) (l.map .str)
      with ⟨processed, found⟩
    rw [hal] at hpl
    dsimp only at hpl
    subst hpl
    refine ⟨l', decide ((l'.map Json.str).length ≥ cs.length), ?_, hnl', hsub⟩
    cases found <;> (dsimp only; rw [setField_pf_completed_stateFields])

/-- One invocation with no manual reset, over a well-formed (or absent)
record for the same directory, keeps the record well-formed and never
removes an element from the stored processed set. -/
theorem invoke_wf_mono (w : World) (st : Store) (dp psub rodc rprog : String)
    (hrp : rprog ≠ "true") (hwf : WFStore st dp) :
    WFStore (load_next_image w st dp psub rodc rprog).1 dp ∧
    ∀ x, pmem x (storedProcessed st dp) = true →
      pmem x (storedProcessed (load_next_image w st dp psub rodc rprog).1 dp) = true := by
  unfold load_next_image
  split
  · exact ⟨hwf, fun _ hx => hx⟩
  · rename_i h0
    have hdp : dp ≠ "" := fun hh => h0 (Or.inl hh)
    split
    · exact ⟨hwf, fun _ hx => hx⟩
    · obtain ⟨l, c, hload, hnl, hsp⟩ : ∃ l c,
          load_state st dp = .obj (stateFields dp l c) ∧ l.Nodup ∧
          storedProcessed st dp = l.map .str := by
        rcases hwf with hnone | ⟨l, c, hst, hnl⟩
        · refine ⟨[], false, load_state_none hdp hnone, List.nodup_nil, ?_⟩
          unfold storedProcessed
          rw [hnone]
          rfl
        · exact ⟨l, c, load_state_stateFields hdp hst, hnl,
            storedProcessed_stateFields hdp hnl hst⟩
      rw [hload]
      dsimp only
      have hdec : decide (rprog = "true") = false := decide_eq_false hrp
      rw [hdec, applyResets_noop]
      dsimp only
      rw [afterLoadState_stateFields w st dp _ c hnl]
      obtain ⟨l', b, hfst, hnl', hsub⟩ :=
        afterDiff_fst_stateFields w st dp (candidates w dp psub) l c hnl
      rw [hfst]
      have hread := save_state_read hdp st (.obj (stateFields dp l' b))
      constructor
      · exact Or.inr ⟨l', b, hread, hnl'⟩
      · intro x hx
        rw [hsp] at hx
        obtain ⟨q, rfl, hq⟩ := pmem_map_str_elim hx
        rw [storedProcessed_stateFields hdp hnl' hread]
        exact (pmem_str_map q l').mpr (hsub q hq)

/-- The four per-invocation inputs of one call in a sequence. -/
structure CallSpec where
  w : World
  psub : String
  rodc : String
  rprog : String

/-- Run a sequence of invocations on one directory, threading the store. -/
def runCalls (dp : String) : List CallSpec → Store → Store
  | [], st => st
  | c :: rest, st =>
    runCalls dp rest (load_next_image c.w st dp c.psub c.rodc c.rprog).1

theorem runCalls_append (dp : String) (l1 l2 : List CallSpec) (st : Store) :
    runCalls dp (l1 ++ l2) st = runCalls dp l2 (runCalls dp l1 st) := by
  induction l1 generalizing st with
  | nil => rfl
  | cons c rest ih =>
    exact ih ((load_next_image c.w st dp c.psub c.rodc c.rprog).1)

theorem runCalls_wf (dp : String) (calls : List CallSpec) :
    ∀ st, WFStore st dp → (∀ c ∈ calls, c.rprog ≠ "true") →
      WFStore (runCalls dp calls st) dp := by
  induction calls with
  | nil => intro st h _; exact h
  | cons c rest ih =>
    intro st h hnr
    unfold runCalls
    exact ih _ ((invoke_wf_mono c.w st dp c.psub c.rodc c.rprog
      (hnr c (by simp)) h).1) (fun d hd => hnr d (by simp [hd]))

/-- C9: over a directory lifetime that starts with no persisted record, for
any sequence of invocations of load_next_image on that directory in which no
call requests reset_progress = "true" — with arbitrary directory contents,
load outcomes and other option values per call — the persisted processedFiles
set never shrinks: after each invocation it is a superset of the set before
it. -/
theorem c9_processed_monotone (dp : String) (calls : List CallSpec) (st0 : Store)
    (h0 : st0 (spath dp) = none)
    (hnr : ∀ c ∈ calls, c.rprog ≠ "true") :
    ∀ i, ∀ x,
      pmem x (storedProcessed (runCalls dp (calls.take i) st0) dp) = true →
      pmem x (storedProcessed (runCalls dp (calls.take (i + 1)) st0) dp) = true := by
  intro i x hx
  by_cases hi : i < calls.length
  · have htake : calls.take (i + 1) = calls.take i ++ [calls[i]] :=
      (List.take_concat_get' calls i hi).symm
    rw [htake, runCalls_append]
    have hwf : WFStore (runCalls dp (calls.take i) st0) dp :=
      runCalls_wf dp (calls.take i) st0 (Or.inl h0)
        (fun c hc => hnr c (List.mem_of_mem_take hc))
    have hmono := invoke_wf_mono (calls[i]).w (runCalls dp (calls.take i) st0)
      dp (calls[i]).psub (calls[i]).rodc (calls[i]).rprog
      (hnr _ (List.getElem_mem hi)) hwf
    exact hmono.2 x hx
  · have hle : calls.length ≤ i := Nat.le_of_not_lt hi
    have e1 : calls.take i = calls := List.take_of_length_le hle
    have e2 : calls.take (i + 1) = calls :=
      List.take_of_length_le (Nat.le_succ_of_le hle)
    rw [e1] at hx
    rw [e2]
    exact hx

/-- C9 witness: two default invocations on a one-image directory; the path
stored by the first call is still stored after the second. -/
theorem c9_witness :
    pmem (.str "d/a.png") (storedProcessed (runCalls "d"
      ([⟨oneImageWorld, "disable", "enable", "false"⟩,
        ⟨oneImageWorld, "disable", "enable", "false"⟩].take 2) emptyStore) "d") =
      true :=
  c9_processed_monotone "d"
    [⟨oneImageWorld, "disable", "enable", "false"⟩,
     ⟨oneImageWorld, "disable", "enable", "false"⟩] emptyStore rfl
    (by decide) 1 (.str "d/a.png") (by decide)

end DirectoryAutoIterator
